import Mathlib

/-!
Shallow embedding of the journal-automation core (`src/journal-automation/src/journal.rs`):
the date-component extractor (`extract_date_components`), the header validator
(`validate_header`), the structure validator loop body of `validate_structure`,
the per-path filter of `process_journal_files`, the per-file step of
`validate_contents`, and the completion-bar arithmetic of `analyze_completion`.

Strings are modelled as `List Char` internally (Lean `String.data`), with ASCII
case folding mirroring Rust's `to_lowercase` on the ASCII range.  Rust `u32`
values are modelled as `Nat` (the `parse::<u32>` bound is kept explicit) and
`i32` casts by `u32ToI32`.  Issue accumulation into per-year hash maps is
modelled as ordered lists of `(year, date, message)` entries, which preserves
exactly which issues are produced; the maps only affect report grouping.
-/

/-- ASCII lower-casing of a single character, mirroring Rust `to_lowercase`
on the ASCII range (the only range exercised by the journal conventions). -/
def lowerChar (c : Char) : Char :=
  match c with
  | 'A' => 'a' | 'B' => 'b' | 'C' => 'c' | 'D' => 'd' | 'E' => 'e' | 'F' => 'f'
  | 'G' => 'g' | 'H' => 'h' | 'I' => 'i' | 'J' => 'j' | 'K' => 'k' | 'L' => 'l'
  | 'M' => 'm' | 'N' => 'n' | 'O' => 'o' | 'P' => 'p' | 'Q' => 'q' | 'R' => 'r'
  | 'S' => 's' | 'T' => 't' | 'U' => 'u' | 'V' => 'v' | 'W' => 'w' | 'X' => 'x'
  | 'Y' => 'y' | 'Z' => 'z'
  | other => other

def lowerChars (l : List Char) : List Char := l.map lowerChar

def lowerStr (s : String) : String := String.mk (lowerChars s.data)

/-- Maximal runs of characters satisfying `keep`, in order; models Rust
`split` on the complement predicate followed by dropping empty pieces. -/
def runsByAux (keep : Char → Bool) : List Char → List Char → List (List Char)
  | [], acc => if acc = [] then [] else [acc.reverse]
  | c :: cs, acc =>
    if keep c then runsByAux keep cs (c :: acc)
    else if acc = [] then runsByAux keep cs []
    else acc.reverse :: runsByAux keep cs []

def runsBy (keep : Char → Bool) (l : List Char) : List (List Char) :=
  runsByAux keep l []

/-- Whitespace-separated words, modelling Rust `split_whitespace`. -/
def wordsOf (l : List Char) : List (List Char) :=
  runsBy (fun c => !c.isWhitespace) l

/-- Maximal digit runs, modelling Rust `split(|c| !c.is_ascii_digit())`
with empty pieces dropped (they fail `parse`). -/
def digitRunsOf (l : List Char) : List (List Char) :=
  runsBy Char.isDigit l

def digitsToNat (l : List Char) : Nat :=
  l.foldl (fun a c => a * 10 + (c.toNat - 48)) 0

/-- `u32::MAX`; digit runs above it fail `parse::<u32>` and are dropped. -/
def u32Max : Nat := 4294967295

/-- Rust `str::parse::<u32>`: optional leading `+`, at least one digit,
value within `u32` range. -/
def parseU32 (l : List Char) : Option Nat :=
  let ds := match l with
    | '+' :: rest => rest
    | other => other
  if ds ≠ [] ∧ ds.all Char.isDigit then
    if digitsToNat ds ≤ u32Max then some (digitsToNat ds) else none
  else none

/-- Rust `as i32` on a `u32` value: two's-complement wrap at `2^31`. -/
def u32ToI32 (n : Nat) : Int :=
  if n < 2147483648 then (n : Int) else (n : Int) - 4294967296

/-- Substring containment, modelling Rust `str::contains` for literal
patterns: `isInfixB needle hay` is true iff `needle` occurs contiguously
inside `hay`. -/
def isInfixB (needle : List Char) : List Char → Bool
  | [] => needle.isEmpty
  | c :: rest => needle.isPrefixOf (c :: rest) || isInfixB needle rest

def containsSub (hay needle : String) : Bool := isInfixB needle.data hay.data

/-- The weekday table of `extract_date_components`: full name and accepted
abbreviations, in source order. -/
def weekdayTable : List (String × List String) :=
  [("sunday", ["sun"]),
   ("monday", ["mon"]),
   ("tuesday", ["tue", "tues"]),
   ("wednesday", ["wed", "weds"]),
   ("thursday", ["thu", "thur", "thurs"]),
   ("friday", ["fri"]),
   ("saturday", ["sat"])]

/-- The month-name table of `extract_date_components`, in source order:
full names first, then abbreviations (no duplicate "may"). -/
def monthTable : List String :=
  ["january", "february", "march", "april", "may", "june", "july",
   "august", "september", "october", "november", "december",
   "jan", "feb", "mar", "apr", "jun", "jul", "aug", "sep", "sept",
   "oct", "nov", "dec"]

/-- Weekday extraction: first table entry one of whose names equals
(case-insensitively) some whitespace-separated word of the text. -/
def extractWeekdayL (t : List Char) : Option String :=
  (weekdayTable.find? (fun e =>
    (wordsOf t).any (fun w =>
      lowerChars w == e.1.data || e.2.any (fun s => lowerChars w == s.data)))).map
    (fun e => e.1)

/-- Month extraction: first table entry occurring as a substring of the text. -/
def extractMonthL (t : List Char) : Option String :=
  monthTable.find? (fun m => isInfixB m.data t)

/-- Number extraction: all maximal digit runs parsed as `u32`, zeros dropped. -/
def extractNumbersL (t : List Char) : List Nat :=
  ((digitRunsOf t).filterMap (fun run =>
      if digitsToNat run ≤ u32Max then some (digitsToNat run) else none)).filter
    (fun n => decide (0 < n))

structure DateComponents where
  weekday : Option String
  month : Option String
  day : Option Nat
  year : Option Int
deriving DecidableEq

/-- Rust `Vec::sort` on `u32`s: stable ascending sort (unique sorted
permutation, since `≤` on `Nat` is a total antisymmetric order). -/
def sortNat (l : List Nat) : List Nat := List.insertionSort (· ≤ ·) l

/-- The generic fallback of `extract_date_components` (source lines 672-703):
year is the last pool element `≥ 1000` (all its occurrences removed from the
pool), day is the file's day if present in the remaining pool, else the first
remaining element `≤ 31`; year defaults to the file year. -/
def genericFallback (weekday month : Option String) (numbers : List Nat)
    (fd : Int × Nat × Nat) : DateComponents :=
  match numbers.reverse.find? (fun n => decide (1000 ≤ n)) with
  | some largest =>
    let rem := numbers.filter (fun n => decide (n ≠ largest))
    if fd.2.2 ∈ rem then
      ⟨weekday, month, some fd.2.2, some (u32ToI32 largest)⟩
    else
      ⟨weekday, month, rem.find? (fun n => decide (n ≤ 31)), some (u32ToI32 largest)⟩
  | none =>
    if fd.2.2 ∈ numbers then
      ⟨weekday, month, some fd.2.2, some fd.1⟩
    else
      ⟨weekday, month, numbers.find? (fun n => decide (n ≤ 31)), some fd.1⟩

/-- The number-disambiguation cascade of `extract_date_components`
(source lines 610-703).  The length-2 and length-3 branches sort the pool
in place (Rust `numbers.sort()`), so their fall-through paths hand the
sorted pool to the generic fallback. -/
def disambiguate (weekday month : Option String) (numbers : List Nat)
    (fd : Int × Nat × Nat) : DateComponents :=
  match numbers with
  | [n] => ⟨weekday, month, some n, some fd.1⟩
  | [a, b] =>
    let s := sortNat [a, b]
    if month.isSome then
      ⟨weekday, month, some (s.headD 0),
        some (if 1000 ≤ s.getD 1 0 then u32ToI32 (s.getD 1 0) else fd.1)⟩
    else
      if s.getD 1 0 ≤ 12 then ⟨weekday, month, some (s.headD 0), some fd.1⟩
      else genericFallback weekday month s fd
  | [a, b, c] =>
    let s := sortNat [a, b, c]
    if fd.2.2 ∈ s ∧ fd.2.1 ∈ s then
      ⟨weekday, month, some fd.2.2,
        some (match s.find? (fun n => decide (1000 ≤ n)) with
              | some n => u32ToI32 n
              | none => fd.1)⟩
    else genericFallback weekday month s fd
  | other => genericFallback weekday month other fd

/-- `extract_date_components(text, file_date)` from the source: lower-case the
text, extract weekday, month name and numbers, then disambiguate. -/
def extract_date_components (text : String) (file_date : Int × Nat × Nat) :
    DateComponents :=
  let t := lowerChars text.data
  disambiguate (extractWeekdayL t) (extractMonthL t) (extractNumbersL t) file_date

/-- The numbers the extractor works on for a given header text. -/
def headerNumbers (text : String) : List Nat :=
  extractNumbersL (lowerChars text.data)

/-- The month name the extractor finds for a given header text. -/
def headerMonth (text : String) : Option String :=
  extractMonthL (lowerChars text.data)

/-- The weekday the extractor finds for a given header text. -/
def headerWeekday (text : String) : Option String :=
  extractWeekdayL (lowerChars text.data)


/-- Full month names as rendered by chrono `%B`. -/
def monthCapNames : List String :=
  ["January", "February", "March", "April", "May", "June", "July",
   "August", "September", "October", "November", "December"]

/-- chrono `%B` lower-cased for a month number, empty for an invalid month
(the `unwrap_or_default` in `validate_header`). -/
def monthFullLower (m : Nat) : String :=
  if 1 ≤ m ∧ m ≤ 12 then lowerStr (monthCapNames.getD (m - 1) "") else ""

/-- chrono `%b` lower-cased for a month number, empty for an invalid month. -/
def monthShortLower (m : Nat) : String :=
  if 1 ≤ m ∧ m ≤ 12 then
    (["jan", "feb", "mar", "apr", "may", "jun", "jul", "aug", "sep", "oct",
      "nov", "dec"]).getD (m - 1) ""
  else ""

/-- chrono `%B` for a valid month number (used in `validate_structure`
date displays). -/
def monthCapName (m : Nat) : String := monthCapNames.getD (m - 1) ""

/-- Rust `{:02}` formatting of a day or month number. -/
def pad2 (n : Nat) : String :=
  if n < 10 then "0" ++ toString n else toString n

/-- Proleptic-Gregorian leap-year rule (chrono's calendar). -/
def isLeap (y : Int) : Bool := y % 4 = 0 ∧ (y % 100 ≠ 0 ∨ y % 400 = 0)

def daysInMonth (y : Int) (m : Nat) : Nat :=
  if m = 2 then (if isLeap y then 29 else 28)
  else if m = 4 ∨ m = 6 ∨ m = 9 ∨ m = 11 then 30
  else 31

/-- `NaiveDate::from_ymd_opt(y, m, d).is_some()` for the year range the
journal index can produce (4-digit path years). -/
def isValidDate (y : Int) (m d : Nat) : Bool :=
  1 ≤ m ∧ m ≤ 12 ∧ 1 ≤ d ∧ d ≤ daysInMonth y m

/-- Sakamoto's day-of-week formula on the proleptic Gregorian calendar,
0 = Sunday; agrees with chrono for the nonnegative years the index yields. -/
def dayOfWeek (y : Int) (m d : Nat) : Nat :=
  let yn := y.toNat
  let yy := if m < 3 then yn - 1 else yn
  let t := [0, 3, 2, 5, 0, 3, 5, 1, 4, 6, 2, 4]
  (yy + yy / 4 + yy / 400 + t.getD (m - 1) 0 + d - yy / 100) % 7

/-- chrono `%A` weekday names indexed by `dayOfWeek`. -/
def weekdayName (i : Nat) : String :=
  (["Sunday", "Monday", "Tuesday", "Wednesday", "Thursday", "Friday",
    "Saturday"]).getD i ""

/-- A `JournalFile` record: path (as `/`-separated segments), implied date
and filename weekday, as built by `process_journal_files`. -/
structure JournalFile where
  path : List String
  year : Int
  month : Nat
  day : Nat
  weekday : String
deriving DecidableEq

/-- `path.file_name()` of a record's path. -/
def fileName (f : JournalFile) : String := f.path.getLastD ""

/-- `validate_header(header, file)` (source lines 729-796): skip if the header
has no ASCII digit, else extract components and compare each present
component against the file's implied date, in source order
(weekday, year, month, day). -/
def validate_header (header : String) (file : JournalFile) : List String :=
  if header.data.any Char.isDigit then
    let comps := extract_date_components header (file.year, file.month, file.day)
    let wIssues : List String :=
      match comps.weekday with
      | some w =>
        let fw := lowerStr file.weekday
        if ¬ (containsSub fw w) ∧ ¬ (containsSub w fw) then
          ["Weekday mismatch: Header has '" ++ w ++ "' but file indicates '" ++
            file.weekday ++ "'"]
        else []
      | none => []
    let yIssues : List String :=
      match comps.year with
      | some y =>
        if y ≠ file.year ∧ containsSub header (toString y) then
          ["Year mismatch: Header has " ++ toString y ++ " but file indicates " ++
            toString file.year]
        else []
      | none => []
    let mIssues : List String :=
      match comps.month with
      | some m =>
        let fm := monthFullLower file.month
        let fms := monthShortLower file.month
        if ¬ (containsSub m fm) ∧ ¬ (containsSub fm m) ∧
           ¬ (containsSub m fms) ∧ ¬ (containsSub fms m) then
          ["Month mismatch: Header has '" ++ m ++ "' but file indicates month " ++
            toString file.month]
        else []
      | none => []
    let dIssues : List String :=
      match comps.day with
      | some d =>
        if d ≠ file.day then
          ["Day mismatch: Header has " ++ toString d ++ " but file indicates " ++
            toString file.day]
        else []
      | none => []
    wIssues ++ yIssues ++ mIssues ++ dIssues
  else []

/-- The `{}-{:02}-{:02}` canonical date key used for duplicate tracking. -/
def dateKeyStr (f : JournalFile) : String :=
  toString f.year ++ "-" ++ pad2 f.month ++ "-" ++ pad2 f.day

/-- The `%B %d, %Y` date display used for issue grouping. -/
def dateDisplay (f : JournalFile) : String :=
  monthCapName f.month ++ " " ++ pad2 f.day ++ ", " ++ toString f.year

/-- State of the `validate_structure` traversal: issues in traversal order
(year, date display, message), the duplicate-tracking map, the renames
performed (old path, new path), and the capitalization-fix flag. -/
structure SState where
  issues : List (Int × String × String)
  seen : List (String × String)
  renames : List (List String × List String)
  fixedCap : Bool
deriving DecidableEq

def initialSState : SState := ⟨[], [], [], false⟩

/-- One iteration of the `validate_structure` loop (source lines 456-501):
invalid date → issue; duplicate date key → duplicate issue only; else insert
the key and, on a weekday mismatch, rename (capitalization-only) or record
a wrong-weekday issue. -/
def structStep (st : SState) (f : JournalFile) : SState :=
  if isValidDate f.year f.month f.day then
    let actual := weekdayName (dayOfWeek f.year f.month f.day)
    let key := dateKeyStr f
    let name := fileName f
    match st.seen.lookup key with
    | some existing =>
      { st with issues := st.issues ++
          [(f.year, dateDisplay f, "Duplicate: " ++ name ++ " and " ++ existing)] }
    | none =>
      let st' := { st with seen := st.seen ++ [(key, name)] }
      if actual ≠ f.weekday then
        if lowerStr actual = lowerStr f.weekday then
          { st' with
            renames := st'.renames ++
              [(f.path, f.path.dropLast ++ [pad2 f.day ++ "_" ++ actual ++ ".md"])],
            fixedCap := true }
        else
          { st' with issues := st'.issues ++
              [(f.year, dateDisplay f,
                "Wrong weekday: " ++ name ++ " (should be " ++ actual ++ ")")] }
      else st'
  else
    { st with issues := st.issues ++
        [(f.year, dateKeyStr f, "Invalid date: " ++ fileName f)] }

/-- The whole `validate_structure` pass over the record list. -/
def validate_structure (files : List JournalFile) : SState :=
  files.foldl structStep initialSState

structure ValidationResult where
  header_issues : List String
  nav_issues : List String
  link_issues : List String
deriving DecidableEq

def ValidationResult.hasIssues (v : ValidationResult) : Bool :=
  ¬ v.header_issues.isEmpty ∨ ¬ v.nav_issues.isEmpty ∨ ¬ v.link_issues.isEmpty

/-- Navigation validation is an unimplemented stub. -/
def validate_nav (_contents : String) (_file : JournalFile) : List String := []

/-- Link validation is an unimplemented stub. -/
def validate_links (_contents : String) (_file : JournalFile) : List String := []

/-- Split at every occurrence of `sep`, keeping empty pieces: Rust
`str::split(sep)`. -/
def splitCharAux (sep : Char) : List Char → List Char → List (List Char)
  | [], acc => [acc.reverse]
  | c :: cs, acc =>
    if c = sep then acc.reverse :: splitCharAux sep cs []
    else splitCharAux sep cs (c :: acc)

def splitChar (sep : Char) (l : List Char) : List (List Char) :=
  splitCharAux sep l []

/-- Rust `str::lines`: split on `'\n'`, drop one trailing empty piece,
strip one trailing `'\r'` per line. -/
def rustLines (l : List Char) : List (List Char) :=
  let parts := splitChar '\n' l
  let parts := if parts.getLastD [' '] = [] then parts.dropLast else parts
  parts.map (fun ln => if ln.getLastD ' ' = '\r' then ln.dropLast else ln)

/-- Rust `trim_start_matches("# ")`: strip every leading `"# "` repetition. -/
def stripHashMarks : List Char → List Char
  | '#' :: ' ' :: rest => stripHashMarks rest
  | other => other

/-- Rust `str::trim` (whitespace from both ends). -/
def trimWS (l : List Char) : List Char :=
  ((l.dropWhile Char.isWhitespace).reverse.dropWhile Char.isWhitespace).reverse

/-- The per-file step of `validate_contents` (source lines 821-850), with the
file's read result modelled as `none` (read error) or `some contents`:
returns the report entry the file contributes, if any. -/
def contentEntry (f : JournalFile) (contents : Option String) :
    Option (Int × String × ValidationResult) :=
  match contents with
  | none => none
  | some c =>
    if c.data = [] then none
    else
      match (rustLines c.data).find? (fun l => "# ".data.isPrefixOf l) with
      | none => none
      | some h =>
        let header := String.mk (trimWS (stripHashMarks h))
        let v : ValidationResult :=
          ⟨validate_header header f, validate_nav c f, validate_links c f⟩
        if v.hasIssues then some (f.year, dateKeyStr f, v) else none

/-- The whole `validate_contents` accumulation over records paired with
their read results; the printed report groups these entries by year. -/
def validate_contents (files : List (JournalFile × Option String)) :
    List (Int × String × ValidationResult) :=
  files.foldl
    (fun acc fc =>
      match contentEntry fc.1 fc.2 with
      | some e => acc ++ [e]
      | none => acc) []

/-- The `/`-separated segments of a path string (`path_str.split('/')`). -/
def pathSegs (path : String) : List (List Char) := splitChar '/' path.data

/-- A path segment that is exactly 4 ASCII digits (the year folder test). -/
def is4DigitSeg (s : List Char) : Bool := s.length = 4 && s.all Char.isDigit

/-- Rust `Path::extension` of a file name: the piece after the last `'.'`,
none when there is no dot or the name is a lone leading-dot name. -/
def pathExt (name : List Char) : Option (List Char) :=
  match splitChar '.' name with
  | [] => none
  | [_] => none
  | first :: rest =>
    if first = [] ∧ rest.length = 1 then none else some (rest.getLastD [])

/-- The filter body of `process_journal_files` (source lines 304-356) for one
walked file path, assuming a normalized file path as `walkdir` yields (so the
last segment is the file name).  `Except.error ()` models the `?`-propagated
fatal errors (missing file name, unparseable month prefix); `Except.ok none`
models a silent skip; `Except.ok (some r)` yields the record. -/
def process_journal_file_path (currentYear : Int) (path : String) :
    Except Unit (Option JournalFile) :=
  let segs := pathSegs path
  let lastSeg := segs.getLastD []
  if pathExt lastSeg = some ("md".data) then
    match segs.find? is4DigitSeg with
    | some ys =>
      if (digitsToNat ys : Int) ≤ currentYear then
        if lastSeg = [] ∨ lastSeg = "..".data then Except.error ()
        else
          if path.data.contains '-' ∧ 10 ≤ lastSeg.length ∧
             (lastSeg.take 2).all Char.isDigit ∧ lastSeg.getD 2 ' ' = '_' ∧
             ".md".data.isSuffixOf (lastSeg.drop 3) then
            let day := digitsToNat (lastSeg.take 2)
            if 1 ≤ day ∧ day ≤ 31 then
              match segs.find? (fun s => s.contains '-') with
              | none => Except.error ()
              | some mp =>
                match parseU32 (mp.takeWhile (fun c => c ≠ '-')) with
                | none => Except.error ()
                | some mo =>
                  Except.ok (some ⟨segs.map String.mk, (digitsToNat ys : Int),
                    mo, day,
                    String.mk ((lastSeg.drop 3).take (lastSeg.length - 6))⟩)
            else Except.ok none
          else Except.ok none
      else Except.ok none
    | none => Except.ok none
  else Except.ok none

/-- The completion rate of `analyze_completion` (source lines 401-405), with
the real arithmetic modelled exactly over `ℚ`. -/
def completionRate (total empty : Nat) : ℚ :=
  if 0 < total then (((total - empty : Nat) : ℚ) / (total : ℚ)) * 100 else 0

/-- `(completion_rate / 5.0).round() as usize` (source line 408); `f64::round`
rounds half away from zero, which on nonnegative values is `round`. -/
def barLen (total empty : Nat) : Nat :=
  (round (completionRate total empty / 5)).toNat

/-- The 20-character completion bar (source line 409). -/
def completionBar (total empty : Nat) : String :=
  String.mk (List.replicate (barLen total empty) '█' ++
             List.replicate (20 - barLen total empty) '░')

/-- The day part of claim C1's generic-fallback contract, for a given
remaining pool: the file's day when it occurs in the pool, otherwise the
smallest pool element `≤ 31` (absent when there is none). -/
def C1DayVal (rem : List Nat) (fday : Nat) (d : Option Nat) : Prop :=
  (fday ∈ rem ∧ d = some fday) ∨
  (fday ∉ rem ∧
    ((d = none ∧ ∀ n ∈ rem, 31 < n) ∨
     (∃ v ∈ rem, v ≤ 31 ∧ (∀ n ∈ rem, n ≤ 31 → v ≤ n) ∧ d = some v)))

/-- Claim C1's generic-fallback contract over the extracted number pool
`ns`: the year is (the `i32` value of) the largest extracted number
`≥ 1000`, which is removed from the pool, with the file year as default;
the day follows `C1DayVal` on the remaining pool. -/
def C1Prop (ns : List Nat) (fy : Int) (fday : Nat) (res : DateComponents) : Prop :=
  (∃ L, 1000 ≤ L ∧ L ∈ ns ∧ (∀ n ∈ ns, 1000 ≤ n → n ≤ L) ∧
     res.year = some (u32ToI32 L) ∧
     C1DayVal (ns.filter (fun n => decide (n ≠ L))) fday res.day) ∨
  ((∀ n ∈ ns, n < 1000) ∧ res.year = some fy ∧ C1DayVal ns fday res.day)

/-- An extracted weekday consistent with the file's weekday: the source's
non-issue condition in `validate_header` (substring containment in either
direction, case-insensitively). -/
def weekdayConsistent (w fw : String) : Prop :=
  containsSub (lowerStr fw) w = true ∨ containsSub w (lowerStr fw) = true

/-- An extracted month name consistent with the file's month number: the
source's non-issue condition in `validate_header` (containment in either
direction against the full or abbreviated month name). -/
def monthConsistent (m : String) (fileMonth : Nat) : Prop :=
  containsSub m (monthFullLower fileMonth) = true ∨
  containsSub (monthFullLower fileMonth) m = true ∨
  containsSub m (monthShortLower fileMonth) = true ∨
  containsSub (monthShortLower fileMonth) m = true

/-- The record `process_journal_file_path` builds for a qualifying path. -/
def c6Record (path : String) : JournalFile :=
  ⟨(pathSegs path).map String.mk,
   (digitsToNat (((pathSegs path).find? is4DigitSeg).getD []) : Int),
   (parseU32 ((((pathSegs path).find? (fun s => s.contains '-')).getD
       []).takeWhile (fun c => c ≠ '-'))).getD 0,
   digitsToNat (((pathSegs path).getLastD []).take 2),
   String.mk ((((pathSegs path).getLastD []).drop 3).take
     (((pathSegs path).getLastD []).length - 6))⟩

/-- The exact conditions under which `process_journal_file_path` yields a
record: markdown extension, first 4-digit segment within the current year,
a proper file name of length `≥ 10` shaped `DD_*.md` with day in `[1,31]`,
a hyphen somewhere in the path, and a parseable month prefix in the first
hyphenated segment. -/
def c6Conditions (cy : Int) (path : String) : Prop :=
  pathExt ((pathSegs path).getLastD []) = some ("md".data) ∧
  (∃ ys, (pathSegs path).find? is4DigitSeg = some ys ∧
    (digitsToNat ys : Int) ≤ cy) ∧
  (pathSegs path).getLastD [] ≠ [] ∧ (pathSegs path).getLastD [] ≠ "..".data ∧
  path.data.contains '-' = true ∧
  10 ≤ ((pathSegs path).getLastD []).length ∧
  (((pathSegs path).getLastD []).take 2).all Char.isDigit = true ∧
  ((pathSegs path).getLastD []).getD 2 ' ' = '_' ∧
  ".md".data.isSuffixOf (((pathSegs path).getLastD []).drop 3) = true ∧
  1 ≤ digitsToNat (((pathSegs path).getLastD []).take 2) ∧
  digitsToNat (((pathSegs path).getLastD []).take 2) ≤ 31 ∧
  (∃ mp, (pathSegs path).find? (fun s => s.contains '-') = some mp ∧
    (parseU32 (mp.takeWhile (fun c => c ≠ '-'))).isSome = true)

/-- The exact conditions under which `process_journal_file_path` propagates
a fatal error instead of skipping: all checks up to the file name pass and
either the file name is missing (empty or `".."` last segment) or the
filename checks pass but the month prefix of the first hyphenated segment
fails to parse as a `u32`. -/
def c6ErrCond (cy : Int) (path : String) : Prop :=
  pathExt ((pathSegs path).getLastD []) = some ("md".data) ∧
  (∃ ys, (pathSegs path).find? is4DigitSeg = some ys ∧
    (digitsToNat ys : Int) ≤ cy) ∧
  ((((pathSegs path).getLastD [] = [] ∨ (pathSegs path).getLastD [] = "..".data)) ∨
   ((pathSegs path).getLastD [] ≠ [] ∧ (pathSegs path).getLastD [] ≠ "..".data ∧
    path.data.contains '-' = true ∧
    10 ≤ ((pathSegs path).getLastD []).length ∧
    (((pathSegs path).getLastD []).take 2).all Char.isDigit = true ∧
    ((pathSegs path).getLastD []).getD 2 ' ' = '_' ∧
    ".md".data.isSuffixOf (((pathSegs path).getLastD []).drop 3) = true ∧
    1 ≤ digitsToNat (((pathSegs path).getLastD []).take 2) ∧
    digitsToNat (((pathSegs path).getLastD []).take 2) ≤ 31 ∧
    ((pathSegs path).find? (fun s => s.contains '-') = none ∨
     (∃ mp, (pathSegs path).find? (fun s => s.contains '-') = some mp ∧
       parseU32 (mp.takeWhile (fun c => c ≠ '-')) = none))))

/-- Modelled from the spec words of claim C6 (for comparison with the code):
a file qualifies iff its extension is the journal markup extension, SOME
path segment is exactly 4 ASCII digits parsing to a year `≤` the current
year, SOME path segment contains a hyphen whose prefix parses as an
integer month, the filename's first two characters are digits forming a
day in `[1,31]`, and its third character is an underscore. -/
def c6SpecQualifies (cy : Int) (path : String) : Prop :=
  pathExt ((pathSegs path).getLastD []) = some ("md".data) ∧
  (∃ ys ∈ pathSegs path, is4DigitSeg ys = true ∧ (digitsToNat ys : Int) ≤ cy) ∧
  (∃ mp ∈ pathSegs path, mp.contains '-' = true ∧
    (parseU32 (mp.takeWhile (fun c => c ≠ '-'))).isSome = true) ∧
  2 ≤ ((pathSegs path).getLastD []).length ∧
  (((pathSegs path).getLastD []).take 2).all Char.isDigit = true ∧
  1 ≤ digitsToNat (((pathSegs path).getLastD []).take 2) ∧
  digitsToNat (((pathSegs path).getLastD []).take 2) ≤ 31 ∧
  ((pathSegs path).getLastD []).getD 2 ' ' = '_'

theorem sortNat_sorted (l : List Nat) : List.Sorted (· ≤ ·) (sortNat l) :=
  List.sorted_insertionSort _ l

theorem sortNat_perm (l : List Nat) : (sortNat l).Perm l :=
  List.perm_insertionSort _ l

theorem sortNat_pair (a b : Nat) :
    sortNat [a, b] = if a ≤ b then [a, b] else [b, a] := by
  simp [sortNat, List.insertionSort, List.orderedInsert]

/-- On a descending list, a successful `find?` for `1000 ≤ ·` returns the
greatest element satisfying the bound. -/
theorem find?_ge_of_desc {v : Nat} :
    ∀ {l : List Nat}, List.Pairwise (fun a b => b ≤ a) l →
    l.find? (fun n => decide (1000 ≤ n)) = some v →
    v ∈ l ∧ 1000 ≤ v ∧ ∀ n ∈ l, 1000 ≤ n → n ≤ v := by
  intro l
  induction l with
  | nil => intro _ h; simp at h
  | cons a t ih =>
    intro hp hf
    rcases List.pairwise_cons.mp hp with ⟨ha, ht⟩
    by_cases h1000 : 1000 ≤ a
    · rw [List.find?_cons_of_pos _ (by simpa using h1000)] at hf
      cases hf
      refine ⟨List.mem_cons_self _ _, h1000, ?_⟩
      intro n hn _
      rcases List.mem_cons.mp hn with rfl | hn
      · exact le_refl _
      · exact ha n hn
    · rw [List.find?_cons_of_neg _ (by simpa using h1000)] at hf
      obtain ⟨hm, hv, hall⟩ := ih ht hf
      refine ⟨List.mem_cons_of_mem _ hm, hv, ?_⟩
      intro n hn h1k
      rcases List.mem_cons.mp hn with rfl | hn
      · omega
      · exact hall n hn h1k

/-- On an ascending list, a successful `find?` for `· ≤ 31` returns the
least element satisfying the bound. -/
theorem find?_le31_of_sorted {v : Nat} :
    ∀ {l : List Nat}, List.Sorted (· ≤ ·) l →
    l.find? (fun n => decide (n ≤ 31)) = some v →
    v ∈ l ∧ v ≤ 31 ∧ ∀ n ∈ l, n ≤ 31 → v ≤ n := by
  intro l
  induction l with
  | nil => intro _ h; simp at h
  | cons a t ih =>
    intro hp hf
    rcases List.sorted_cons.mp hp with ⟨ha, ht⟩
    by_cases h31 : a ≤ 31
    · rw [List.find?_cons_of_pos _ (by simpa using h31)] at hf
      cases hf
      refine ⟨List.mem_cons_self _ _, h31, ?_⟩
      intro n hn _
      rcases List.mem_cons.mp hn with rfl | hn
      · exact le_refl _
      · exact ha n hn
    · rw [List.find?_cons_of_neg _ (by simpa using h31)] at hf
      obtain ⟨hm, hv, hall⟩ := ih ht hf
      refine ⟨List.mem_cons_of_mem _ hm, hv, ?_⟩
      intro n hn hn31
      rcases List.mem_cons.mp hn with rfl | hn
      · omega
      · exact hall n hn hn31

/-- The generic fallback satisfies claim C1's contract whenever its pool is
sorted ascending (as the length-2/3 fall-through paths guarantee): stated
against any permutation `ns` of the pool, in particular the extracted
text-order numbers. -/
theorem genericFallback_c1 (w m : Option String) (fd : Int × Nat × Nat)
    {s ns : List Nat} (hs : List.Sorted (· ≤ ·) s) (hp : s.Perm ns) :
    C1Prop ns fd.1 fd.2.2 (genericFallback w m s fd) := by
  unfold genericFallback
  cases hfind : s.reverse.find? (fun n => decide (1000 ≤ n)) with
  | none =>
    have hall : ∀ n ∈ ns, n < 1000 := by
      intro n hn
      have hns : n ∈ s.reverse := List.mem_reverse.mpr (hp.mem_iff.mpr hn)
      have := List.find?_eq_none.mp hfind n hns
      simp only [decide_eq_true_eq] at this
      omega
    by_cases hmem : fd.2.2 ∈ s
    · rw [if_pos hmem]
      exact Or.inr ⟨hall, rfl, Or.inl ⟨hp.mem_iff.mp hmem, rfl⟩⟩
    · rw [if_neg hmem]
      have hnotns : fd.2.2 ∉ ns := fun h => hmem (hp.mem_iff.mpr h)
      refine Or.inr ⟨hall, rfl, ?_⟩
      cases hfind31 : s.find? (fun n => decide (n ≤ 31)) with
      | none =>
        refine Or.inr ⟨hnotns, Or.inl ⟨rfl, ?_⟩⟩
        intro n hn
        have := List.find?_eq_none.mp hfind31 n (hp.mem_iff.mpr hn)
        simp only [decide_eq_true_eq] at this
        omega
      | some v =>
        obtain ⟨hm', hv, hallv⟩ := find?_le31_of_sorted hs hfind31
        exact Or.inr ⟨hnotns, Or.inr ⟨v, hp.mem_iff.mp hm', hv,
          fun n hn h31 => hallv n (hp.mem_iff.mpr hn) h31, rfl⟩⟩
  | some L =>
    dsimp only
    have hdesc : List.Pairwise (fun a b => b ≤ a) s.reverse :=
      List.pairwise_reverse.mpr hs
    obtain ⟨hmemRev, hL, hmax⟩ := find?_ge_of_desc hdesc hfind
    have hLs : L ∈ s := List.mem_reverse.mp hmemRev
    have hmaxns : ∀ n ∈ ns, 1000 ≤ n → n ≤ L := fun n hn h1k =>
      hmax n (List.mem_reverse.mpr (hp.mem_iff.mpr hn)) h1k
    have hpf : (s.filter (fun n => decide (n ≠ L))).Perm
        (ns.filter (fun n => decide (n ≠ L))) := hp.filter _
    have hsf : List.Sorted (· ≤ ·) (s.filter (fun n => decide (n ≠ L))) :=
      List.Pairwise.filter _ hs
    refine Or.inl ⟨L, hL, hp.mem_iff.mp hLs, hmaxns, ?_, ?_⟩
    · split <;> rfl
    · by_cases hmem : fd.2.2 ∈ s.filter (fun n => decide (n ≠ L))
      · rw [if_pos hmem]
        exact Or.inl ⟨hpf.mem_iff.mp hmem, rfl⟩
      · rw [if_neg hmem]
        have hnotns : fd.2.2 ∉ ns.filter (fun n => decide (n ≠ L)) :=
          fun h => hmem (hpf.mem_iff.mpr h)
        cases hfind31 : (s.filter (fun n => decide (n ≠ L))).find?
            (fun n => decide (n ≤ 31)) with
        | none =>
          refine Or.inr ⟨hnotns, Or.inl ⟨rfl, ?_⟩⟩
          intro n hn
          have := List.find?_eq_none.mp hfind31 n (hpf.mem_iff.mpr hn)
          simp only [decide_eq_true_eq] at this
          omega
        | some v =>
          obtain ⟨hm', hv, hallv⟩ := find?_le31_of_sorted hsf hfind31
          exact Or.inr ⟨hnotns, Or.inr ⟨v, hpf.mem_iff.mp hm', hv,
            fun n hn h31 => hallv n (hpf.mem_iff.mpr hn) h31, rfl⟩⟩

/-- C1: in the generic fallback of `extract_date_components` (reached with 0
extracted numbers, or exactly two numbers with no month name and the larger
number `> 12`, or exactly three numbers not matching the file's day and
month), the year chosen is the largest extracted number `≥ 1000` (the file
year if none exists), that number is removed from the pool, and the day is
the file's day if it occurs among the remaining numbers, otherwise the
smallest remaining number `≤ 31`. -/
theorem C1_generic_fallback_year_day (text : String) (fd : Int × Nat × Nat)
    (h : headerNumbers text = [] ∨
         ((headerNumbers text).length = 2 ∧ headerMonth text = none ∧
           12 < (sortNat (headerNumbers text)).getD 1 0) ∨
         ((headerNumbers text).length = 3 ∧
           ¬ (fd.2.2 ∈ sortNat (headerNumbers text) ∧
              fd.2.1 ∈ sortNat (headerNumbers text)))) :
    C1Prop (headerNumbers text) fd.1 fd.2.2 (extract_date_components text fd) := by
  have hd : extract_date_components text fd =
      disambiguate (headerWeekday text) (headerMonth text) (headerNumbers text) fd := rfl
  rw [hd]
  rcases h with h0 | ⟨h2, hm, hgt⟩ | ⟨h3, hnm⟩
  · rw [h0]
    exact genericFallback_c1 _ _ _ List.sorted_nil (List.Perm.refl _)
  · obtain ⟨a, b, hab⟩ := List.length_eq_two.mp h2
    rw [hab] at hgt ⊢
    rw [hm]
    simp only [disambiguate]
    rw [if_neg (by simp), if_neg (by omega)]
    exact genericFallback_c1 _ _ _ (sortNat_sorted _) (sortNat_perm _)
  · obtain ⟨a, b, c, habc⟩ := List.length_eq_three.mp h3
    rw [habc] at hnm ⊢
    simp only [disambiguate]
    rw [if_neg hnm]
    exact genericFallback_c1 _ _ _ (sortNat_sorted _) (sortNat_perm _)

/-- C1 witness: the header `"3 15"` (two numbers, no month, larger `> 12`)
for the file date 2024-03-05 satisfies the hypotheses and the contract. -/
theorem C1_generic_fallback_year_day_witness :
    (headerNumbers "3 15").length = 2 ∧ headerMonth "3 15" = none ∧
    12 < (sortNat (headerNumbers "3 15")).getD 1 0 ∧
    C1Prop (headerNumbers "3 15") 2024 5 (extract_date_components "3 15" (2024, 3, 5)) :=
  ⟨by decide, by decide, by decide,
   C1_generic_fallback_year_day "3 15" (2024, 3, 5)
     (Or.inr (Or.inl ⟨by decide, by decide, by decide⟩))⟩

/-- C2 counterexample: for the header `"2024 1500"` (exactly two numbers in
text order `[2024, 1500]`, no month name, larger `> 12`) the extractor's
result differs from the generic fallback applied to the original
(unsorted, text-order) pair: the in-place sort makes the fallback see
`[1500, 2024]` and choose year 2024, while the original pair would give
1500.  So the fall-through does not use the original number set. -/
theorem C2_sorted_pool_counterexample :
    headerNumbers "2024 1500" = [2024, 1500] ∧
    headerMonth "2024 1500" = none ∧
    extract_date_components "2024 1500" (2020, 3, 5) ≠
      genericFallback (headerWeekday "2024 1500") none [2024, 1500] (2020, 3, 5) :=
  ⟨by decide, by decide, by decide⟩

/-- C2 amended: for every header text containing exactly two positive
numbers, no month name, and whose larger number is `> 12`,
`extract_date_components` does not return early: it falls through to the
generic fallback, and the number set it uses there is the SORTED pair (the
in-place `numbers.sort()` persists into the fall-through), not the original
text-order pair. -/
theorem C2_two_number_fallthrough_sorted (text : String) (fd : Int × Nat × Nat)
    (a b : Nat) (h1 : headerNumbers text = [a, b]) (h2 : headerMonth text = none)
    (h3 : 12 < max a b) :
    extract_date_components text fd =
      genericFallback (headerWeekday text) none (sortNat [a, b]) fd := by
  have hgt : ¬ ((sortNat [a, b]).getD 1 0 ≤ 12) := by
    rw [sortNat_pair]
    split <;> simp <;> omega
  show disambiguate (headerWeekday text) (headerMonth text) (headerNumbers text) fd = _
  rw [h1, h2]
  simp only [disambiguate]
  rw [if_neg hgt]
  simp

/-- C2 witness: the header `"7 200"` falls through to the generic fallback
on the sorted pair. -/
theorem C2_two_number_fallthrough_sorted_witness :
    headerNumbers "7 200" = [7, 200] ∧ headerMonth "7 200" = none ∧
    12 < max 7 200 ∧
    extract_date_components "7 200" (2024, 3, 5) =
      genericFallback (headerWeekday "7 200") none (sortNat [7, 200]) (2024, 3, 5) :=
  ⟨by decide, by decide, by decide,
   C2_two_number_fallthrough_sorted "7 200" (2024, 3, 5) 7 200
     (by decide) (by decide) (by decide)⟩

/-- C7: for every header string containing no ASCII digit, `validate_header`
returns an empty issue list (the guard short-circuits before extraction). -/
theorem C7_no_digit_no_issues (header : String) (f : JournalFile)
    (h : ∀ c ∈ header.data, ¬ c.isDigit = true) :
    validate_header header f = [] := by
  unfold validate_header
  have hfalse : header.data.any Char.isDigit = false := by
    rw [List.any_eq_false]
    exact h
  simp [hfalse]

/-- C7 witness: a digit-free header yields no issues. -/
theorem C7_no_digit_no_issues_witness :
    (∀ c ∈ ("no digits here".data), ¬ c.isDigit = true) ∧
    validate_header "no digits here" ⟨["x"], 2024, 3, 5, "Tuesday"⟩ = [] :=
  ⟨by decide,
   C7_no_digit_no_issues "no digits here" ⟨["x"], 2024, 3, 5, "Tuesday"⟩ (by decide)⟩

/-- C10: for every header text and every implied file date, the
`DateComponents` returned by `extract_date_components` has `year = some _`:
every return path either takes a year from the text's numbers or defaults
it to the file's implied year. -/
theorem C10_year_always_some (text : String) (fd : Int × Nat × Nat) :
    (extract_date_components text fd).year.isSome = true := by
  have hgf : ∀ w m ns, (genericFallback w m ns fd).year.isSome = true := by
    intro w m ns
    unfold genericFallback
    split
    · dsimp only
      split <;> rfl
    · split <;> rfl
  unfold extract_date_components disambiguate
  dsimp only
  split
  · rfl
  · split
    · rfl
    · split
      · rfl
      · apply hgf
  · split
    · rfl
    · apply hgf
  · apply hgf

theorem lookup_append_single {l : List (String × String)} {k v : String}
    (h : l.lookup k = none) : (l ++ [(k, v)]).lookup k = some v := by
  rw [List.lookup_append, h]
  simp

/-- A valid-date record whose date key is unseen inserts its key into the
duplicate-tracking map, whatever the weekday branch does. -/
theorem structStep_seen (st : SState) (f : JournalFile)
    (hv : isValidDate f.year f.month f.day = true)
    (hns : st.seen.lookup (dateKeyStr f) = none) :
    (structStep st f).seen = st.seen ++ [(dateKeyStr f, fileName f)] := by
  unfold structStep
  rw [if_pos hv]
  dsimp only
  rw [hns]
  dsimp only
  split
  · split <;> rfl
  · rfl

/-- A valid-date record whose date key was already seen produces exactly the
duplicate issue naming both filenames, and changes nothing else. -/
theorem structStep_dup (st : SState) (f : JournalFile)
    (hv : isValidDate f.year f.month f.day = true)
    {ex : String} (hlk : st.seen.lookup (dateKeyStr f) = some ex) :
    structStep st f = { st with issues := st.issues ++
      [(f.year, dateDisplay f, "Duplicate: " ++ fileName f ++ " and " ++ ex)] } := by
  unfold structStep
  rw [if_pos hv]
  dsimp only
  rw [hlk]

/-- C4: in `validate_structure`, when two records share the same valid
calendar date (the first one's key being unseen), the second record is
flagged with exactly one duplicate issue naming both filenames, and for it
no rename, no weekday-mismatch issue and no map change happens (the state
changes only by that issue); the first record is processed normally and
registers its date key. -/
theorem C4_duplicate_second_flagged (st : SState) (f1 f2 : JournalFile)
    (hy : f2.year = f1.year) (hm : f2.month = f1.month) (hd : f2.day = f1.day)
    (hv : isValidDate f1.year f1.month f1.day = true)
    (hns : st.seen.lookup (dateKeyStr f1) = none) :
    structStep (structStep st f1) f2 =
      { structStep st f1 with
        issues := (structStep st f1).issues ++
          [(f2.year, dateDisplay f2,
            "Duplicate: " ++ fileName f2 ++ " and " ++ fileName f1)] } ∧
    (structStep st f1).seen.lookup (dateKeyStr f1) = some (fileName f1) := by
  have hseen := structStep_seen st f1 hv hns
  have hkey : dateKeyStr f2 = dateKeyStr f1 := by
    unfold dateKeyStr
    rw [hy, hm, hd]
  have hlk : (structStep st f1).seen.lookup (dateKeyStr f1) = some (fileName f1) := by
    rw [hseen]
    exact lookup_append_single hns
  have hv2 : isValidDate f2.year f2.month f2.day = true := by
    rw [hy, hm, hd]; exact hv
  refine ⟨?_, hlk⟩
  rw [structStep_dup (structStep st f1) f2 hv2 (by rw [hkey]; exact hlk)]

/-- C4 witness: two records for 2024-03-05; the second is flagged as the
duplicate of the first, and neither is renamed. -/
theorem C4_duplicate_second_flagged_witness :
    isValidDate (2024 : Int) 3 5 = true ∧
    (structStep (structStep initialSState
        ⟨["journal", "2024", "03-mar", "05_Tuesday.md"], 2024, 3, 5, "Tuesday"⟩)
        ⟨["journal", "2024", "03-mar", "05_tuesday.md"], 2024, 3, 5, "tuesday"⟩).issues =
      [(2024, "March 05, 2024", "Duplicate: 05_tuesday.md and 05_Tuesday.md")] ∧
    (structStep (structStep initialSState
        ⟨["journal", "2024", "03-mar", "05_Tuesday.md"], 2024, 3, 5, "Tuesday"⟩)
        ⟨["journal", "2024", "03-mar", "05_tuesday.md"], 2024, 3, 5, "tuesday"⟩).renames = [] := by
  have h := C4_duplicate_second_flagged initialSState
    ⟨["journal", "2024", "03-mar", "05_Tuesday.md"], 2024, 3, 5, "Tuesday"⟩
    ⟨["journal", "2024", "03-mar", "05_tuesday.md"], 2024, 3, 5, "tuesday"⟩
    rfl rfl rfl (by decide) rfl
  refine ⟨by decide, ?_, ?_⟩
  · rw [h.1]
    decide
  · rw [h.1]
    decide

/-- C5: in `validate_structure`, a non-duplicate record with a valid date
whose filename weekday differs from the computed weekday is renamed to the
correctly-cased `DD_Weekday.md` name with no issue recorded when the two
weekday strings agree ignoring case, and gets a wrong-weekday issue with no
rename when they differ beyond case. -/
theorem C5_weekday_case_rename_or_issue (st : SState) (f : JournalFile)
    (hv : isValidDate f.year f.month f.day = true)
    (hns : st.seen.lookup (dateKeyStr f) = none)
    (hdiff : weekdayName (dayOfWeek f.year f.month f.day) ≠ f.weekday) :
    (lowerStr (weekdayName (dayOfWeek f.year f.month f.day)) = lowerStr f.weekday →
      structStep st f = { st with
        seen := st.seen ++ [(dateKeyStr f, fileName f)],
        renames := st.renames ++ [(f.path, f.path.dropLast ++
          [pad2 f.day ++ "_" ++ weekdayName (dayOfWeek f.year f.month f.day) ++ ".md"])],
        fixedCap := true }) ∧
    (lowerStr (weekdayName (dayOfWeek f.year f.month f.day)) ≠ lowerStr f.weekday →
      structStep st f = { st with
        seen := st.seen ++ [(dateKeyStr f, fileName f)],
        issues := st.issues ++ [(f.year, dateDisplay f,
          "Wrong weekday: " ++ fileName f ++ " (should be " ++
            weekdayName (dayOfWeek f.year f.month f.day) ++ ")")] }) := by
  constructor
  · intro hcase
    unfold structStep
    rw [if_pos hv]
    dsimp only
    rw [hns]
    dsimp only
    rw [if_pos hdiff, if_pos hcase]
  · intro hcase
    unfold structStep
    rw [if_pos hv]
    dsimp only
    rw [hns]
    dsimp only
    rw [if_pos hdiff, if_neg hcase]

/-- C5 witness: the record `05_tuesday.md` (capitalization-only mismatch
with the computed `Tuesday`) is renamed and produces no issue. -/
theorem C5_weekday_case_rename_or_issue_witness :
    isValidDate (2024 : Int) 3 5 = true ∧
    weekdayName (dayOfWeek (2024 : Int) 3 5) ≠ "tuesday" ∧
    (structStep initialSState
        ⟨["journal", "2024", "03-mar", "05_tuesday.md"], 2024, 3, 5, "tuesday"⟩).renames =
      [(["journal", "2024", "03-mar", "05_tuesday.md"],
        ["journal", "2024", "03-mar", "05_Tuesday.md"])] ∧
    (structStep initialSState
        ⟨["journal", "2024", "03-mar", "05_tuesday.md"], 2024, 3, 5, "tuesday"⟩).issues = [] := by
  have h := (C5_weekday_case_rename_or_issue initialSState
    ⟨["journal", "2024", "03-mar", "05_tuesday.md"], 2024, 3, 5, "tuesday"⟩
    (by decide) rfl (by decide)).1 (by decide)
  refine ⟨by decide, by decide, ?_, ?_⟩
  · rw [h]
    decide
  · rw [h]
    decide

/-- C8: during content validation, a record whose file contents cannot be
read (`none`), are empty, or contain no line starting with the `"# "` header
marker contributes no entry, and removing it from the traversal leaves the
whole report unchanged (the failure is local, never a report-level error). -/
theorem C8_unreadable_skipped (f : JournalFile) (c : Option String)
    (h : c = none ∨ c = some "" ∨
         ∃ s, c = some s ∧ ∀ line ∈ rustLines s.data,
           ¬ ("# ".data.isPrefixOf line = true)) :
    contentEntry f c = none ∧
    ∀ pre post, validate_contents (pre ++ (f, c) :: post) =
      validate_contents (pre ++ post) := by
  have hnone : contentEntry f c = none := by
    rcases h with rfl | rfl | ⟨s, rfl, hlines⟩
    · rfl
    · rfl
    · unfold contentEntry
      have hfind : (rustLines s.data).find? (fun l => "# ".data.isPrefixOf l) = none :=
        List.find?_eq_none.mpr hlines
      by_cases hempty : s.data = []
      · simp [hempty]
      · simp [hempty, hfind]
  refine ⟨hnone, ?_⟩
  intro pre post
  unfold validate_contents
  rw [List.foldl_append, List.foldl_cons, List.foldl_append]
  congr 1
  dsimp only
  rw [hnone]

/-- C8 witness: a file whose contents have no header line is skipped and
contributes nothing to the report. -/
theorem C8_unreadable_skipped_witness :
    (∃ s, (some "notes only\nbody" : Option String) = some s ∧
      ∀ line ∈ rustLines s.data, ¬ ("# ".data.isPrefixOf line = true)) ∧
    contentEntry ⟨["x"], 2024, 3, 5, "Tuesday"⟩ (some "notes only\nbody") = none ∧
    validate_contents [(⟨["x"], 2024, 3, 5, "Tuesday"⟩, some "notes only\nbody")] =
      validate_contents [] := by
  have h := C8_unreadable_skipped ⟨["x"], 2024, 3, 5, "Tuesday"⟩
    (some "notes only\nbody")
    (Or.inr (Or.inr ⟨"notes only\nbody", rfl, by decide⟩))
  exact ⟨⟨"notes only\nbody", rfl, by decide⟩, h.1, h.2 [] []⟩

/-- C9: the completion bar has 20 characters with the filled-block count
equal to the completion percentage divided by 5, rounded to nearest; a year
with 20 total daily files of which 10 are non-empty yields a rate of
exactly 50% and a bar of 10 filled blocks followed by 10 unfilled ones. -/
theorem C9_completion_bar (total empty : Nat) (h2 : 0 < total) :
    ((completionBar total empty).data.count '█' : Int) =
      round (completionRate total empty / 5) ∧
    (completionBar total empty).data.length = 20 ∧
    completionRate 20 10 = 50 ∧
    completionBar 20 10 = "██████████░░░░░░░░░░" := by
  have htpos : (0 : ℚ) < (total : ℚ) := by exact_mod_cast h2
  have hrate0 : 0 ≤ completionRate total empty := by
    unfold completionRate
    rw [if_pos h2]
    positivity
  have hrate100 : completionRate total empty ≤ 100 := by
    unfold completionRate
    rw [if_pos h2]
    have hle : ((total - empty : Nat) : ℚ) ≤ (total : ℚ) := by
      exact_mod_cast Nat.sub_le total empty
    have hdiv : ((total - empty : Nat) : ℚ) / (total : ℚ) ≤ 1 := by
      rw [div_le_one htpos]
      exact hle
    nlinarith
  have hround0 : 0 ≤ round (completionRate total empty / 5) := by
    rw [round_eq]
    have : (0 : ℚ) ≤ completionRate total empty / 5 + 1 / 2 := by positivity
    exact Int.floor_nonneg.mpr this
  have hround20 : round (completionRate total empty / 5) ≤ 20 := by
    rw [round_eq]
    have hlt : completionRate total empty / 5 + 1 / 2 < ((21 : Int) : ℚ) := by
      push_cast
      nlinarith
    have := Int.floor_lt.mpr hlt
    omega
  have hcount : (completionBar total empty).data.count '█' = barLen total empty := by
    unfold completionBar
    simp [List.count_append, List.count_replicate_self, List.count_replicate]
  have hrate2010 : completionRate 20 10 = 50 := by
    unfold completionRate
    norm_num
  have hb10 : barLen 20 10 = 10 := by
    unfold barLen
    rw [hrate2010]
    rw [show (50 : ℚ) / 5 = ((10 : ℤ) : ℚ) by norm_num, round_intCast]
    rfl
  refine ⟨?_, ?_, hrate2010, ?_⟩
  · rw [hcount]
    unfold barLen
    rw [Int.toNat_of_nonneg hround0]
  · unfold completionBar
    simp only [String.mk]
    rw [List.length_append, List.length_replicate, List.length_replicate]
    unfold barLen
    omega
  · unfold completionBar
    rw [hb10]
    decide

/-- C9 witness: the 20-total / 10-empty instance. -/
theorem C9_completion_bar_witness :
    0 < 20 ∧
    (((completionBar 20 10).data.count '█' : Int) =
      round (completionRate 20 10 / 5) ∧
    (completionBar 20 10).data.length = 20 ∧
    completionRate 20 10 = 50 ∧
    completionBar 20 10 = "██████████░░░░░░░░░░") :=
  ⟨by decide, C9_completion_bar 20 10 (by decide)⟩

theorem lowerChar_isDigit (c : Char) : (lowerChar c).isDigit = c.isDigit := by
  unfold lowerChar
  split <;> rfl

theorem any_isDigit_lowerChars (l : List Char) :
    (lowerChars l).any Char.isDigit = l.any Char.isDigit := by
  induction l with
  | nil => rfl
  | cons c t ih =>
    simp only [lowerChars, List.map_cons, List.any_cons] at ih ⊢
    rw [lowerChar_isDigit, ih]

theorem runsByAux_all_not (keep : Char → Bool) :
    ∀ (l acc : List Char), (∀ c ∈ l, ¬ keep c = true) →
    runsByAux keep l acc = if acc = [] then [] else [acc.reverse] := by
  intro l
  induction l with
  | nil => intro acc _; rfl
  | cons c t ih =>
    intro acc hall
    have hc : ¬ keep c = true := hall c (List.mem_cons_self _ _)
    have ht : ∀ x ∈ t, ¬ keep x = true := fun x hx => hall x (List.mem_cons_of_mem _ hx)
    unfold runsByAux
    rw [if_neg hc]
    by_cases hacc : acc = []
    · rw [if_pos hacc, ih [] ht, if_pos hacc, if_pos rfl]
    · rw [if_neg hacc, ih [] ht, if_pos rfl, if_neg hacc]

/-- A text yielding at least one extracted number contains a digit. -/
theorem extractNumbersL_ne_nil_digit {t : List Char}
    (h : extractNumbersL t ≠ []) : t.any Char.isDigit = true := by
  by_contra hno
  apply h
  have hall : ∀ c ∈ t, ¬ Char.isDigit c = true := by
    intro c hc hdig
    exact hno (List.any_eq_true.mpr ⟨c, hc, hdig⟩)
  unfold extractNumbersL digitRunsOf runsBy
  rw [runsByAux_all_not Char.isDigit t [] hall, if_pos rfl]
  rfl

/-- C3 counterexample: the header `"december 5 3 2024"` contains exactly the
file's day, month and year as digit runs (and no other digits), yet
`validate_header` reports an issue (the month word "december" mismatches
file month 3), so the claim as stated is false. -/
theorem C3_wellformed_header_counterexample :
    (headerNumbers "december 5 3 2024").Perm [5, 3, 2024] ∧
    validate_header "december 5 3 2024"
      ⟨["journal", "2024", "03-mar", "05_Tuesday.md"], 2024, 3, 5, "Tuesday"⟩ ≠ [] :=
  ⟨by decide, by decide⟩

/-- C3 amended: for every record (with the data-model invariants: day in
[1,31], month in [1,12], 4-digit year), if the header text contains exactly
the file's day, month number and year as its digit runs (no other digits)
AND every weekday token and month name occurring in the text is consistent
with the file's date, then `validate_header` returns an empty issue list. -/
theorem C3_wellformed_numeric_header_no_issues (header : String) (f : JournalFile)
    (hd : 1 ≤ f.day ∧ f.day ≤ 31) (hm : 1 ≤ f.month ∧ f.month ≤ 12)
    (hy : 1000 ≤ f.year ∧ f.year ≤ 9999)
    (hnums : (headerNumbers header).Perm [f.day, f.month, f.year.toNat])
    (hw : ∀ w, headerWeekday header = some w → weekdayConsistent w f.weekday)
    (hmo : ∀ m, headerMonth header = some m → monthConsistent m f.month) :
    validate_header header f = [] := by
  have hne : headerNumbers header ≠ [] := by
    intro h0
    have hl := hnums.length_eq
    rw [h0] at hl
    simp at hl
  have hdig : header.data.any Char.isDigit = true := by
    have hlow := extractNumbersL_ne_nil_digit (t := lowerChars header.data) hne
    rw [any_isDigit_lowerChars] at hlow
    exact hlow
  have hlen : (headerNumbers header).length = 3 := by
    rw [hnums.length_eq]
    rfl
  obtain ⟨a, b, c, habc⟩ := List.length_eq_three.mp hlen
  have hsp : (sortNat [a, b, c]).Perm [f.day, f.month, f.year.toNat] :=
    (sortNat_perm [a, b, c]).trans (habc ▸ hnums)
  have hcomps : extract_date_components header (f.year, f.month, f.day) =
      ⟨headerWeekday header, headerMonth header, some f.day, some f.year⟩ := by
    have hd3 : extract_date_components header (f.year, f.month, f.day) =
        disambiguate (headerWeekday header) (headerMonth header)
          (headerNumbers header) (f.year, f.month, f.day) := rfl
    rw [hd3, habc]
    simp only [disambiguate]
    have hdmem : f.day ∈ sortNat [a, b, c] := hsp.mem_iff.mpr (by simp)
    have hmmem : f.month ∈ sortNat [a, b, c] := hsp.mem_iff.mpr (by simp)
    rw [if_pos ⟨hdmem, hmmem⟩]
    have hymem : f.year.toNat ∈ sortNat [a, b, c] := hsp.mem_iff.mpr (by simp)
    have hytn : 1000 ≤ f.year.toNat := by omega
    cases hfind : (sortNat [a, b, c]).find? (fun n => decide (1000 ≤ n)) with
    | none =>
      exact absurd (List.find?_eq_none.mp hfind _ hymem) (by simpa using hytn)
    | some v =>
      have hvmem : v ∈ [f.day, f.month, f.year.toNat] :=
        hsp.mem_iff.mp (List.mem_of_find?_eq_some hfind)
      have hv1000 : 1000 ≤ v := by simpa using List.find?_some hfind
      have hveq : v = f.year.toNat := by
        simp only [List.mem_cons, List.not_mem_nil, or_false] at hvmem
        rcases hvmem with rfl | rfl | rfl
        · omega
        · omega
        · rfl
      subst hveq
      have hcast : u32ToI32 f.year.toNat = f.year := by
        unfold u32ToI32
        rw [if_pos (by omega)]
        omega
      dsimp only
      rw [hcast]
  unfold validate_header
  rw [if_pos hdig]
  dsimp only
  rw [hcomps]
  dsimp only
  cases hww : headerWeekday header with
  | none =>
    cases hmm2 : headerMonth header with
    | none => simp
    | some m =>
      have hmo' := hmo m hmm2
      rcases hmo' with h | h | h | h <;> simp [h]
  | some w =>
    have hw' := hw w hww
    cases hmm2 : headerMonth header with
    | none =>
      rcases hw' with h | h <;> simp [h]
    | some m =>
      have hmo' := hmo m hmm2
      rcases hw' with h | h <;> rcases hmo' with h2 | h2 | h2 | h2 <;> simp [h, h2]

/-- C3 witness: the purely numeric header `"05 03 2024"` for the file
2024-03-05 produces no issues. -/
theorem C3_wellformed_numeric_header_no_issues_witness :
    (headerNumbers "05 03 2024").Perm [5, 3, 2024] ∧
    validate_header "05 03 2024"
      ⟨["journal", "2024", "03-mar", "05_Tuesday.md"], 2024, 3, 5, "Tuesday"⟩ = [] := by
  refine ⟨by decide, ?_⟩
  apply C3_wellformed_numeric_header_no_issues
  · exact ⟨by decide, by decide⟩
  · exact ⟨by decide, by decide⟩
  · exact ⟨by decide, by decide⟩
  · decide
  · intro w h
    rw [show headerWeekday "05 03 2024" = none from by decide] at h
    exact Option.noConfusion h
  · intro m h
    rw [show headerMonth "05 03 2024" = none from by decide] at h
    exact Option.noConfusion h

/-- A record is produced for a path exactly when all of the code's checks
pass (helper for claim C6). -/
theorem c6_ok_some_iff (cy : Int) (path : String) (jf : JournalFile) :
    process_journal_file_path cy path = Except.ok (some jf) ↔
      (c6Conditions cy path ∧ jf = c6Record path) := by
  unfold process_journal_file_path
  dsimp only
  constructor
  · intro h
    split at h
    · -- ext ok
      next hext =>
      split at h
      · -- find? year = some ys
        next ys hys =>
        split at h
        · -- year ≤ cy
          next hyear =>
          split at h
          · -- bad last seg: error
            simp at h
          · next hbad =>
            split at h
            · -- composite holds
              next hcomp =>
              split at h
              · -- day range ok
                next hday =>
                split at h
                · -- month seg find? = none: error
                  simp at h
                · next mp hmp =>
                  split at h
                  · simp at h
                  · next mo hmo =>
                    simp only [Except.ok.injEq, Option.some.injEq] at h
                    rw [not_or] at hbad
                    refine ⟨⟨hext, ⟨ys, hys, hyear⟩, hbad.1, hbad.2,
                      hcomp.1, hcomp.2.1, hcomp.2.2.1, hcomp.2.2.2.1, hcomp.2.2.2.2,
                      hday.1, hday.2, ⟨mp, hmp, by rw [hmo]; rfl⟩⟩, ?_⟩
                    rw [← h]
                    unfold c6Record
                    rw [hys, hmp]
                    simp only [Option.getD_some]
                    rw [hmo]
                    simp only [Option.getD_some]
              · simp at h
            · simp at h
        · simp at h
      · simp at h
    · simp at h
  · rintro ⟨⟨hext, ⟨ys, hys, hyear⟩, hb1, hb2, hhyph, hlen10, hdig2, hund, hsuf,
      hday1, hday31, ⟨mp, hmp, hpm⟩⟩, rfl⟩
    rcases Option.isSome_iff_exists.mp hpm with ⟨mo, hmo⟩
    rw [if_pos hext, hys]
    dsimp only
    rw [if_pos hyear, if_neg (not_or.mpr ⟨hb1, hb2⟩),
      if_pos ⟨hhyph, hlen10, hdig2, hund, hsuf⟩, if_pos ⟨hday1, hday31⟩, hmp]
    dsimp only
    rw [hmo]
    dsimp only
    unfold c6Record
    rw [hys, hmp]
    simp only [Option.getD_some]
    rw [hmo]
    simp only [Option.getD_some]

/-- The filter propagates a fatal error exactly in the missing-file-name and
month-prefix-parse-failure situations (helper for claim C6). -/
theorem c6_error_iff (cy : Int) (path : String) :
    process_journal_file_path cy path = Except.error () ↔ c6ErrCond cy path := by
  unfold process_journal_file_path c6ErrCond
  dsimp only
  constructor
  · intro h
    split at h
    · next hext =>
      split at h
      · next ys hys =>
        split at h
        · next hyear =>
          split at h
          · next hbad =>
            exact ⟨hext, ⟨ys, hys, hyear⟩, Or.inl hbad⟩
          · next hbad =>
            split at h
            · next hcomp =>
              split at h
              · next hday =>
                split at h
                · next hmpn =>
                  rw [not_or] at hbad
                  exact ⟨hext, ⟨ys, hys, hyear⟩, Or.inr ⟨hbad.1, hbad.2,
                    hcomp.1, hcomp.2.1, hcomp.2.2.1, hcomp.2.2.2.1, hcomp.2.2.2.2,
                    hday.1, hday.2, Or.inl hmpn⟩⟩
                · next mp hmp =>
                  split at h
                  · next hpn =>
                    rw [not_or] at hbad
                    exact ⟨hext, ⟨ys, hys, hyear⟩, Or.inr ⟨hbad.1, hbad.2,
                      hcomp.1, hcomp.2.1, hcomp.2.2.1, hcomp.2.2.2.1, hcomp.2.2.2.2,
                      hday.1, hday.2, Or.inr ⟨mp, hmp, hpn⟩⟩⟩
                  · next mo hmo => simp at h
              · simp at h
            · simp at h
        · simp at h
      · simp at h
    · simp at h
  · rintro ⟨hext, ⟨ys, hys, hyear⟩, hrest⟩
    rw [if_pos hext, hys]
    dsimp only
    rw [if_pos hyear]
    rcases hrest with hbad | ⟨hb1, hb2, hhyph, hlen10, hdig2, hund, hsuf,
      hday1, hday31, hmonth⟩
    · rw [if_pos hbad]
    · rw [if_neg (not_or.mpr ⟨hb1, hb2⟩),
        if_pos ⟨hhyph, hlen10, hdig2, hund, hsuf⟩, if_pos ⟨hday1, hday31⟩]
      rcases hmonth with hmpn | ⟨mp, hmp, hpn⟩
      · rw [hmpn]
      · rw [hmp]
        dsimp only
        rw [hpn]

/-- C6: characterization of the journal file index filter.  A path yields a
record iff: markdown extension, the FIRST 4-digit path segment parses to a
year at most the current year, the file name has length at least 10 and is
shaped `DD_*.md` with day in [1,31] and an underscore third character, the
path contains a hyphen, and the first hyphenated segment's prefix parses as
a `u32` month.  A failing month-prefix parse (or missing file name) yields
a propagated ERROR, not a silent skip; every other failing check yields no
record and no error. -/
theorem C6_index_filter_characterization (cy : Int) (path : String) :
    (∀ jf, process_journal_file_path cy path = Except.ok (some jf) ↔
      (c6Conditions cy path ∧ jf = c6Record path)) ∧
    (process_journal_file_path cy path = Except.error () ↔ c6ErrCond cy path) ∧
    (¬ c6Conditions cy path → ¬ c6ErrCond cy path →
      process_journal_file_path cy path = Except.ok none) := by
  refine ⟨fun jf => c6_ok_some_iff cy path jf, c6_error_iff cy path, ?_⟩
  intro hnc hne
  cases hv : process_journal_file_path cy path with
  | error e =>
    cases e
    exact absurd ((c6_error_iff cy path).mp hv) hne
  | ok o =>
    cases o with
    | none => rfl
    | some jf => exact absurd (((c6_ok_some_iff cy path jf).mp hv).1) hnc

/-- C6 counterexample: the path `notes/journal/2020/03-mar/05_Abc.md`
satisfies every condition of the claim as stated (extension, some 4-digit
segment within the current year, parseable hyphen-segment prefix, 2-digit
day in range, underscore), yet the index yields no record, because the code
additionally requires a file name of length at least 10. -/
theorem C6_index_filter_counterexample :
    c6SpecQualifies 2025 "notes/journal/2020/03-mar/05_Abc.md" ∧
    process_journal_file_path 2025 "notes/journal/2020/03-mar/05_Abc.md" =
      Except.ok none :=
  ⟨⟨by decide, ⟨"2020".data, by decide, by decide, by decide⟩,
    ⟨"03-mar".data, by decide, by decide, by decide⟩,
    by decide, by decide, by decide, by decide, by decide⟩, by rfl⟩

/-- C6 witness: a conforming path yields exactly the expected record. -/
theorem C6_index_filter_characterization_witness :
    c6Conditions 2025 "a/journal/2020/03-mar/05_Tuesday.md" ∧
    process_journal_file_path 2025 "a/journal/2020/03-mar/05_Tuesday.md" =
      Except.ok (some ⟨["a", "journal", "2020", "03-mar", "05_Tuesday.md"],
        2020, 3, 5, "Tuesday"⟩) := by
  have hc : c6Conditions 2025 "a/journal/2020/03-mar/05_Tuesday.md" :=
    ⟨by decide, ⟨"2020".data, by decide, by decide⟩, by decide, by decide,
     by decide, by decide, by decide, by decide, by decide, by decide, by decide,
     ⟨"03-mar".data, by decide, by decide⟩⟩
  refine ⟨hc, ?_⟩
  have h := ((C6_index_filter_characterization 2025 "a/journal/2020/03-mar/05_Tuesday.md").1
    (c6Record "a/journal/2020/03-mar/05_Tuesday.md")).mpr ⟨hc, rfl⟩
  rw [h]
  rfl
